import Mathlib

/-!
Verification of the retrieval pipeline of an AI-tutor backend: document
chunking (`document_parser.py`), the vector stores
(`embedding_manager.py`, `langchain_vector_store.py`), bounded per-user
conversation memory (`memory_manager.py`) and the RAG orchestration layer
(`rag_service.py`, `langchain_tutor.py`).

The Python sources are embedded shallowly: pure functions become Lean
functions, object mutation becomes explicit state passing, Python
exceptions become `Except`, float distances become `ℚ`, and the injected
collaborators (embedding model, LLM, text splitter) become function
parameters.  Python string primitives (`str.split()`, `str.strip()`,
slicing, `str.join`) are modelled directly on the character list of a
`String` so that every definition evaluates by kernel reduction.
-/

namespace AITutor

/-! ## Python string primitives -/

/-- Helper for `pySplit`: walk the characters, accumulating the current word
(reversed); whitespace closes the current word.  Mirrors CPython
`str.split()` with no separator argument: runs of whitespace separate
words and leading/trailing whitespace produces no empty words. -/
def splitWsAux : List Char → List Char → List (List Char)
  | [], acc => if acc.isEmpty then [] else [acc.reverse]
  | c :: cs, acc =>
    if c.isWhitespace then
      (if acc.isEmpty then splitWsAux cs [] else acc.reverse :: splitWsAux cs [])
    else splitWsAux cs (c :: acc)

/-- Python `text.split()` (whitespace tokenisation, empty pieces dropped). -/
def pySplit (s : String) : List String := (splitWsAux s.data []).map String.mk

/-- Python `s.strip()`: drop whitespace from both ends. -/
def pyStrip (s : String) : String :=
  String.mk (((s.data.dropWhile Char.isWhitespace).reverse.dropWhile Char.isWhitespace).reverse)

/-- Python `s[:n]` on a string (slice of the first `n` code points). -/
def pyTake (s : String) (n : Nat) : String := String.mk (s.data.take n)

/-- Python `sep.join(parts)`. -/
def joinSep (sep : String) : List String → String
  | [] => ""
  | [a] => a
  | a :: b :: rest => a ++ sep ++ joinSep sep (b :: rest)

/-- Python `os.path.basename` for POSIX paths (component after the last slash). -/
def basename (p : String) : String :=
  String.mk ((p.data.reverse.takeWhile (fun c => c ≠ '/')).reverse)

/-! ## Chunker: `DocumentParser._create_overlapping_chunks`

`DocumentParser.__init__` fixes `chunk_size = 500` and `chunk_overlap = 50`;
the embedding keeps both as explicit parameters `W` and `O` (the values of
the two instance attributes) so the windowing law can be stated for the
configured tunables. -/

/-- Default of the `chunk_size` attribute (words per chunk). -/
def defaultChunkSize : Nat := 500

/-- Default of the `chunk_overlap` attribute (overlapping words). -/
def defaultChunkOverlap : Nat := 50

/-- A chunk dictionary as produced by `_create_overlapping_chunks`
(`{'text', 'section', 'source_file', 'chunk_id', 'word_count'}`).
The Python key `section` is named `sectionLabel` because `section` is a
Lean keyword. -/
structure Chunk where
  text : String
  sectionLabel : String
  source_file : String
  chunk_id : String
  word_count : Nat
deriving Repr, DecidableEq

/-- One iteration body of the `while start < len(words)` loop:
`end = min(start + chunk_size, len(words)); chunk_words = words[start:end]`. -/
def windowChunk (W : Nat) (words : List String) (secL srcBase : String)
    (start cid : Nat) : Chunk :=
  let e := min (start + W) words.length
  let chunk_words := (words.drop start).take (e - start)
  { text := joinSep " " chunk_words
    sectionLabel := secL
    source_file := srcBase
    chunk_id := secL ++ "_" ++ toString cid
    word_count := chunk_words.length }

/-- The chunking loop of `_create_overlapping_chunks`: emit a window, then
`start += chunk_size - chunk_overlap; chunk_id += 1` while
`start < len(words)`.  The Python loop terminates whenever
`chunk_overlap < chunk_size`; the `fuel` argument makes the recursion
total (every caller passes enough fuel for that case). -/
def chunkLoop (W O : Nat) (words : List String) (secL srcBase : String) :
    Nat → Nat → Nat → List Chunk
  | 0, _, _ => []
  | fuel + 1, start, cid =>
    if start < words.length then
      windowChunk W words secL srcBase start cid ::
        chunkLoop W O words secL srcBase fuel (start + (W - O)) (cid + 1)
    else []

/-- `DocumentParser._create_overlapping_chunks(text, section, source_file)`
with the instance attributes `chunk_size = W` and `chunk_overlap = O`. -/
def create_overlapping_chunks (W O : Nat) (text secL source_file : String) :
    List Chunk :=
  let words := pySplit text
  if words.length ≤ W then
    [{ text := text
       sectionLabel := secL
       source_file := basename source_file
       chunk_id := secL ++ "_0"
       word_count := words.length }]
  else
    chunkLoop W O words secL (basename source_file) words.length 0 0

/-! ## Conversation memory: `memory_manager.py` -/

/-- A stored message: a `(role, content)` pair. -/
abbrev Msg := String × String

/-- Default of `ConversationMemory.max_messages`. -/
def defaultMaxMessages : Nat := 10

/-- Python `l[-N:]` for `N : Nat`: the last `N` elements, except that
`l[-0:]` is the whole list. -/
def pyTail (N : Nat) (l : List Msg) : List Msg :=
  if N = 0 then l else l.drop (l.length - N)

/-- `ConversationMemory.add_message`: append, then keep only the last
`max_messages` entries (`self.messages = self.messages[-self.max_messages:]`)
whenever the bound is exceeded. -/
def add_message (N : Nat) (msgs : List Msg) (m : Msg) : List Msg :=
  let l := msgs ++ [m]
  if N < l.length then pyTail N l else l

/-! `ConversationMemoryManager` keeps a dict from user id to that user's
`ConversationMemory`.  The embedding passes the dict (as an association
list from user id to stored messages; every memory it creates has the
default bound) explicitly through the functions that mutate it. -/

/-- The manager's `self.memories`, user id ↦ stored messages. -/
abbrev MemDict := List (String × List Msg)

/-- Whether `user_id in self.memories`. -/
def hasMem (d : MemDict) (u : String) : Bool := d.any (fun p => p.1 == u)

/-- The messages of `self.memories[u]` (`[]` when the user is unknown). -/
def getMsgs (d : MemDict) (u : String) : List Msg :=
  ((d.find? (fun p => p.1 == u)).map Prod.snd).getD []

/-- The mutation part of `ConversationMemoryManager.get_memory`: create a
fresh empty memory for an unknown user id. -/
def ensureMem (d : MemDict) (u : String) : MemDict :=
  if hasMem d u then d else d ++ [(u, [])]

/-- In-place replacement of user `u`'s stored messages. -/
def setMsgs (d : MemDict) (u : String) (ms : List Msg) : MemDict :=
  d.map (fun p => if p.1 == u then (p.1, ms) else p)

/-! ## FAISS flat index (external collaborator)

Both stores delegate nearest-neighbour search to a FAISS `IndexFlatL2`.
The index is modelled as the list of stored vectors; floats become `ℚ`.
`IndexFlatL2.search(q, k)` returns, for the query row, `k` pairs of
(squared L2 distance, label) sorted by ascending distance; when `k`
exceeds the number of stored vectors the remaining rows are padded with
label `-1` and distance `FLT_MAX`. -/

/-- Squared L2 distance between two vectors. -/
def l2sq (u v : List ℚ) : ℚ := (List.zipWith (fun a b => (a - b) * (a - b)) u v).sum

/-- The IEEE single-precision `FLT_MAX`, the distance FAISS reports for
padded rows. -/
def fltMax : ℚ := 340282346638528859811704183484516925440

/-- Comparison of (label, distance) pairs by distance. -/
def distLE (a b : Int × ℚ) : Prop := a.2 ≤ b.2

instance : DecidableRel distLE := fun a b => inferInstanceAs (Decidable (a.2 ≤ b.2))

instance : IsTotal (Int × ℚ) distLE := ⟨fun a b => le_total a.2 b.2⟩

instance : IsTrans (Int × ℚ) distLE := ⟨fun _ _ _ h1 h2 => le_trans h1 h2⟩

/-- Model of `IndexFlatL2.search` over stored vectors `embs`: all
(label, distance) pairs sorted ascending by distance, truncated to `k`
rows and padded with `(-1, FLT_MAX)` rows up to length `k`. -/
def faissSearch (embs : List (List ℚ)) (q : List ℚ) (k : Nat) : List (Int × ℚ) :=
  let pairs := embs.enum.map (fun p => ((p.1 : Int), l2sq q p.2))
  let top := (List.insertionSort distLE pairs).take k
  top ++ List.replicate (k - top.length) (-1, fltMax)

/-! ## `LangChainVectorStore` (`langchain_vector_store.py`) -/

/-- A LangChain `Document` as built by `LangChainVectorStore.add_chunks`:
`page_content` plus the metadata keys it sets.  The metadata key
`section` is named `sectionLabel` because `section` is a Lean keyword. -/
structure LCDoc where
  page_content : String
  source_file : String
  sectionLabel : String
  chunk_id : String
  original_chunk_id : String
deriving Repr, DecidableEq

/-- The state of a `LangChainVectorStore`: `self.vectorstore` is `None`
until the first successful add, afterwards a FAISS store holding one
(vector, document) entry per indexed sub-document. -/
structure LCStore where
  vectorstore : Option (List (List ℚ × LCDoc))
deriving Repr, DecidableEq

/-- A search-result dictionary as built by `LangChainVectorStore.search`
(`{'text', 'source_file', 'section', 'chunk_id', 'distance',
'relevance_score'}`); the key `section` is named `sectionLabel`. -/
structure ChunkDict where
  text : String
  source_file : String
  sectionLabel : String
  chunk_id : String
  distance : ℚ
  relevance_score : ℚ
deriving Repr, DecidableEq

/-- The external `langchain_community` FAISS wrapper method
`FAISS.similarity_search_with_score` (not part of this repository):
run the flat-index search with the embedded query and return the
(document, score) pairs, skipping the `-1` labels that FAISS emits when
`k` exceeds the index size. -/
def similarity_search_with_score (entries : List (List ℚ × LCDoc)) (qv : List ℚ)
    (k : Nat) : List (LCDoc × ℚ) :=
  (faissSearch (entries.map Prod.fst) qv k).filterMap (fun p =>
    if p.1 = -1 then none
    else (entries[p.1.toNat]?).map (fun e => (e.2, p.2)))

/-- `LangChainVectorStore.search(query, top_k)`: delegate to
`similarity_search_with_score` and convert each scored document to a
chunk dictionary with `relevance_score = 1 / (1 + distance)`. -/
def LCStore.search (emb : String → List ℚ) (st : LCStore) (query : String)
    (top_k : Nat) : List ChunkDict :=
  match st.vectorstore with
  | none => []
  | some entries =>
    (similarity_search_with_score entries (emb query) top_k).map (fun r =>
      { text := r.1.page_content
        source_file := r.1.source_file
        sectionLabel := r.1.sectionLabel
        chunk_id := r.1.chunk_id
        distance := r.2
        relevance_score := 1 / (1 + r.2) })

/-- `LangChainVectorStore.count()`: `self.vectorstore.index.ntotal`, the
number of indexed vectors (0 when the store is `None`). -/
def LCStore.count (st : LCStore) : Nat :=
  match st.vectorstore with
  | none => 0
  | some entries => entries.length

/-- `LangChainVectorStore.add_chunks(chunks)`: skip an empty input; split
each chunk's non-empty text with the injected
`RecursiveCharacterTextSplitter` (`splitText`), wrap every piece in a
`Document` whose `chunk_id` gets the piece index appended; embed and add
the documents, creating the FAISS store on first use. -/
def LCStore.add_chunks (emb : String → List ℚ) (splitText : String → List String)
    (st : LCStore) (chunks : List Chunk) : LCStore :=
  if chunks.isEmpty then st
  else
    let documents := chunks.flatMap (fun c =>
      if c.text = "" then []
      else (splitText c.text).enum.map (fun p =>
        ({ page_content := p.2
           source_file := c.source_file
           sectionLabel := c.sectionLabel
           chunk_id := c.chunk_id ++ "_" ++ toString p.1
           original_chunk_id := c.chunk_id } : LCDoc)))
    if documents.isEmpty then st
    else
      let newEntries := documents.map (fun d => (emb d.page_content, d))
      match st.vectorstore with
      | none => { vectorstore := some newEntries }
      | some entries => { vectorstore := some (entries ++ newEntries) }

/-! ## `EmbeddingManager` (`embedding_manager.py`) -/

/-- Python `l[i]` for `i : Int`: non-negative indices count from the
front, negative indices from the back (`l[-1]` is the last element);
anything else raises `IndexError` (modelled as `none`). -/
def pyIdx {α : Type} (l : List α) (i : Int) : Option α :=
  if 0 ≤ i then l[i.toNat]?
  else if (-i).toNat ≤ l.length then l[l.length - (-i).toNat]? else none

/-- The state of an `EmbeddingManager`: `self.index` (`None` until the
first add, afterwards the FAISS vectors) and `self.chunks` (the stored
chunk metadata). -/
structure EmbeddingManager where
  index : Option (List (List ℚ))
  chunks : List Chunk
deriving Repr, DecidableEq

/-- `EmbeddingManager.add_chunks(chunks)`: embed every chunk text, create
the flat index if needed, append the vectors and extend `self.chunks`.
On empty input the call raises: `model.encode([])` returns a
shape-`(0,)` array and `IndexFlatL2.add` fails unpacking
`n, d = x.shape` with `ValueError` — modelled as `Except.error`.  The
raise happens before `self.chunks.extend`, so the only mutation the
caller's object keeps is a possibly freshly created empty index, which
`count()` and `search` (both guarded by `len(self.chunks)`) cannot
observe. -/
def EmbeddingManager.add_chunks (emb : String → List ℚ) (m : EmbeddingManager)
    (chunks : List Chunk) : Except Unit EmbeddingManager :=
  let embeddings := (chunks.map Chunk.text).map emb
  let base := match m.index with
    | none => []
    | some es => es
  if chunks.isEmpty then Except.error ()
  else Except.ok { index := some (base ++ embeddings), chunks := m.chunks ++ chunks }

/-- `EmbeddingManager.count()`. -/
def EmbeddingManager.count (m : EmbeddingManager) : Nat := m.chunks.length

/-- `EmbeddingManager.search(query, top_k)`: empty result on an empty
index; otherwise run the flat-index search and, for each returned
`(idx, dist)` row with `idx < len(self.chunks)`, copy the chunk dict at
Python index `idx` and attach the distance.  (FAISS pads with `idx = -1`
when `top_k` exceeds the index size, and `-1 < len(self.chunks)`, so a
padded row yields `self.chunks[-1]`, the last stored chunk.) -/
def EmbeddingManager.search (emb : String → List ℚ) (m : EmbeddingManager)
    (query : String) (top_k : Nat) : List (Chunk × ℚ) :=
  match m.index with
  | none => []
  | some embs =>
    if m.chunks.length = 0 then []
    else
      (faissSearch embs (emb query) top_k).filterMap (fun p =>
        if p.1 < (m.chunks.length : Int) then
          (pyIdx m.chunks p.1).map (fun c => (c, p.2))
        else none)

/-! ## `LangChainTutor` (`langchain_tutor.py`) and
`LangChainRAGService` (`rag_service.py`)

The generation capability (`self.llm.invoke`) is injected as a function
from the message list to `Except Unit String`: `Except.error` models any
exception raised by the call (capability error or timeout), `Except.ok`
a returned completion. -/

/-- The injected generation capability. -/
abbrev Gen := List Msg → Except Unit String

/-- The fixed fallback message for an uninitialised store or an empty
retrieval. -/
def insufficientMsg : String :=
  "I don\x27t have enough information to answer that question. Please upload some study materials first."

/-- The fixed message returned when the generated answer is too short. -/
def apologyMsg : String :=
  "I apologize, but I couldn\x27t generate a proper answer. Please try rephrasing your question."

/-- The system message `generate_answer` sends to the LLM. -/
def systemMsg : Msg :=
  ("system", "You are a helpful AI tutor that provides clear, comprehensive answers based on provided study materials.")

/-- `LangChainTutor._prepare_context(chunks)`: number and concatenate the
top 3 chunks (`chunks[:3]`). -/
def prepare_context (chunks : List ChunkDict) : String :=
  joinSep "\n\n" ((chunks.take 3).enum.map (fun p =>
    "Source " ++ toString (p.1 + 1) ++ " (" ++ p.2.source_file ++ ", " ++
      p.2.sectionLabel ++ "): " ++ p.2.text))

/-- `LangChainTutor._create_prompt(query, context)`. -/
def create_prompt (query context : String) : String :=
  "You are a helpful AI tutor. Based on the following information from study materials, provide a clear and comprehensive answer to the student\x27s question.\n\nInformation from study materials:\n"
    ++ context
    ++ "\n\nStudent Question: " ++ query
    ++ "\n\nPlease provide a concise answer that:\n1. Synthesizes the information from the provided sources\n2. Addresses the question directly and comprehensively\n3. Organizes the response in a logical, easy-to-understand format\n4. Focuses on the information available without asking for additional details\n\nAnswer:"

/-- `LangChainTutor._simple_answer(query, context_chunks)`: the fallback
used when the LLM call raises — concatenate the top 3 retrieved chunk
texts with light formatting. -/
def simple_answer (query : String) (context_chunks : List ChunkDict) : String :=
  if context_chunks = [] then insufficientMsg
  else
    joinSep "\n"
      (["Based on the information from your documents, here\x27s what I found:\n"] ++
        (context_chunks.take 3).enum.flatMap (fun p =>
          [toString (p.1 + 1) ++ ". From " ++ p.2.source_file ++ " (" ++
              p.2.sectionLabel ++ "):",
           "   " ++ p.2.text,
           ""]) ++
        ["This is a basic answer based on the retrieved content."])

/-- `LangChainTutor.generate_answer(query, context_chunks, user_id)`.
Returns the answer string together with the updated memory dict.  The
method looks up (creating if needed) the user's memory, sends the last
four stored messages plus the RAG prompt to the LLM, and

* on an exception from the LLM call returns `_simple_answer` with the
  memory contents untouched;
* on a completion, first appends `(user, query)` and
  `(assistant, answer)` to the user's memory, then returns the stripped
  completion if it is longer than 20 characters and the fixed apology
  message otherwise. -/
def generate_answer (gen : Gen) (mem : MemDict) (query : String)
    (context_chunks : List ChunkDict) (user_id : Option String) :
    String × MemDict :=
  if context_chunks = [] then (insufficientMsg, mem)
  else
    let context := prepare_context context_chunks
    let prompt := create_prompt query context
    let mem1 := match user_id with
      | some u => ensureMem mem u
      | none => mem
    let history := match user_id with
      | some u =>
        let msgs := getMsgs mem1 u
        msgs.drop (msgs.length - 4)
      | none => []
    let messages := systemMsg :: history ++ [("user", prompt)]
    match gen messages with
    | Except.error _ => (simple_answer query context_chunks, mem1)
    | Except.ok raw =>
      let answer := pyStrip raw
      let mem2 := match user_id with
        | some u =>
          setMsgs mem1 u
            (add_message defaultMaxMessages
              (add_message defaultMaxMessages (getMsgs mem1 u) ("user", query))
              ("assistant", answer))
        | none => mem1
      if answer ≠ "" ∧ 20 < (pyStrip answer).length then (answer, mem2)
      else (apologyMsg, mem2)

/-- One reported source of an `AnswerResult`. -/
structure AnswerSource where
  file : String
  sectionLabel : String
  text : String
  relevance_score : ℚ
deriving Repr, DecidableEq

/-- The dictionary `answer_question` returns. -/
structure AnswerResult where
  answer : String
  sources : List AnswerSource
  total_sources : Nat
  query : String
deriving Repr, DecidableEq

/-- The `text` field of a reported source:
`text[:200] + '...' if len(text) > 200 else text`. -/
def truncateText (text : String) : String :=
  if 200 < text.length then pyTake text 200 ++ "..." else text

/-- `LangChainRAGService.answer_question(query, top_k, user_id)`, returning
the result dictionary together with the updated memory dict.

When `self.vector_store.vectorstore` is `None` the method returns the
fixed insufficient-information result.  Otherwise it enters the `try`
block, whose first statement calls `self.vector_store.get_retriever` — a
method `LangChainVectorStore` does not define — so the block raises
`AttributeError` at once and every call continues in the `except`
branch: retrieve chunks with `self.vector_store.search(query, top_k)`,
short-circuit on an empty retrieval, otherwise answer through
`LangChainTutor.generate_answer` and report every retrieved chunk as a
source (text truncated to 200 characters, `relevance_score` copied). -/
def answer_question (emb : String → List ℚ) (gen : Gen) (st : LCStore)
    (mem : MemDict) (query : String) (top_k : Nat) (user_id : Option String) :
    AnswerResult × MemDict :=
  match st.vectorstore with
  | none =>
    ({ answer := insufficientMsg, sources := [], total_sources := 0, query := query }, mem)
  | some _ =>
    let retrieved_chunks := LCStore.search emb st query top_k
    if retrieved_chunks = [] then
      ({ answer := insufficientMsg, sources := [], total_sources := 0, query := query }, mem)
    else
      let p := generate_answer gen mem query retrieved_chunks user_id
      let sources := retrieved_chunks.map (fun c =>
        ({ file := c.source_file
           sectionLabel := c.sectionLabel
           text := truncateText c.text
           relevance_score := c.relevance_score } : AnswerSource))
      ({ answer := p.1, sources := sources, total_sources := sources.length,
         query := query }, p.2)

/-! ## Python list objects for `ConversationMemory.get_messages`

`get_messages` is `return self.messages.copy()`.  To state what the copy
buys the caller, Python list objects are modelled by a small heap: a
store of list values addressed by allocation order.  `self.messages` is
one address; `list.copy()` allocates a fresh address with the same
contents; an in-place mutation overwrites the value at one address. -/

/-- The heap of Python list objects. -/
structure PyHeap where
  lists : List (List Msg)
deriving Repr, DecidableEq

/-- Allocate a fresh list object, returning the new heap and its address. -/
def heapAlloc (h : PyHeap) (v : List Msg) : PyHeap × Nat :=
  ({ lists := h.lists ++ [v] }, h.lists.length)

/-- The value of the list object at address `r`. -/
def heapGet (h : PyHeap) (r : Nat) : List Msg := (h.lists[r]?).getD []

/-- In-place mutation of the list object at address `r`. -/
def heapSet (h : PyHeap) (r : Nat) (v : List Msg) : PyHeap :=
  { lists := h.lists.set r v }

/-- `ConversationMemory.get_messages`: `return self.messages.copy()` —
allocate a fresh list object holding the same contents as
`self.messages` (whose address is `selfMessages`) and hand its address
to the caller. -/
def get_messages (h : PyHeap) (selfMessages : Nat) : PyHeap × Nat :=
  heapAlloc h (heapGet h selfMessages)

/-! ## Concrete instances used by witnesses and counterexamples -/

/-- An embedding capability that embeds every text as the empty vector. -/
def zeroEmb : String → List ℚ := fun _ => []

/-- A generation capability that always raises. -/
def genFail : Gen := fun _ => Except.error ()

/-- A generation capability that always returns a too-short completion. -/
def genShort : Gen := fun _ => Except.ok "ok"

/-- A sample indexed document. -/
def demoDoc : LCDoc :=
  { page_content := "Photosynthesis converts light energy into chemical energy stored in glucose."
    source_file := "doc.pdf"
    sectionLabel := "Page 1"
    chunk_id := "Page 1_0_0"
    original_chunk_id := "Page 1_0" }

/-- A vector store holding exactly one entry. -/
def demoStore : LCStore := { vectorstore := some [([], demoDoc)] }

/-- A family of sample documents. -/
def docN (n : Nat) : LCDoc :=
  { page_content := "Content number " ++ toString n
    source_file := "doc.pdf"
    sectionLabel := "Page " ++ toString n
    chunk_id := "Page " ++ toString n ++ "_0_0"
    original_chunk_id := "Page " ++ toString n ++ "_0" }

/-- A vector store holding four entries. -/
def demoStore4 : LCStore :=
  { vectorstore := some [([], docN 1), ([], docN 2), ([], docN 3), ([], docN 4)] }

/-- A sample parser chunk. -/
def demoChunk : Chunk :=
  { text := "Photosynthesis converts light energy."
    sectionLabel := "Page 1"
    source_file := "doc.pdf"
    chunk_id := "Page 1_0"
    word_count := 5 }

/-- A parser chunk whose text is empty. -/
def emptyTextChunk : Chunk :=
  { text := ""
    sectionLabel := "Page 1"
    source_file := "doc.pdf"
    chunk_id := "Page 1_0"
    word_count := 0 }

/-! ## Chunker lemmas -/

/-- The window body only ever sees the first `W` tokens after `start`. -/
lemma windowChunk_eq (W : Nat) (words : List String) (secL srcBase : String)
    (start cid : Nat) :
    windowChunk W words secL srcBase start cid =
      { text := joinSep " " ((words.drop start).take W)
        sectionLabel := secL
        source_file := srcBase
        chunk_id := secL ++ "_" ++ toString cid
        word_count := ((words.drop start).take W).length } := by
  have h : (words.drop start).take (min (start + W) words.length - start) =
      (words.drop start).take W := by
    rw [List.take_eq_take]
    simp only [List.length_drop]
    omega
  simp only [windowChunk]
  rw [h]

/-- Characterisation of the chunking loop, given enough fuel: chunk `i`
exists iff the `i`-th window start is still inside the token list, and
chunk `i` is the window starting at `start + (W - O) * i`. -/
lemma chunkLoop_spec (W O : Nat) (words : List String) (secL srcBase : String)
    (hs : 1 ≤ W - O) :
    ∀ (fuel start cid : Nat), words.length ≤ start + (W - O) * fuel →
      (∀ i : Nat,
        i < (chunkLoop W O words secL srcBase fuel start cid).length ↔
          start + (W - O) * i < words.length) ∧
      (∀ i : Nat, start + (W - O) * i < words.length →
        (chunkLoop W O words secL srcBase fuel start cid)[i]? =
          some (windowChunk W words secL srcBase (start + (W - O) * i) (cid + i))) := by
  intro fuel
  induction fuel with
  | zero =>
    intro start cid hfuel
    constructor
    · intro i
      simp only [chunkLoop, List.length_nil]
      have : start ≤ start + (W - O) * i := Nat.le_add_right _ _
      omega
    · intro i h
      exfalso
      have : start ≤ start + (W - O) * i := Nat.le_add_right _ _
      omega
  | succ fuel ih =>
    intro start cid hfuel
    by_cases hlt : start < words.length
    · have hrec : words.length ≤ (start + (W - O)) + (W - O) * fuel := by
        rw [Nat.mul_succ] at hfuel
        omega
      obtain ⟨ih1, ih2⟩ := ih (start + (W - O)) (cid + 1) hrec
      constructor
      · intro i
        cases i with
        | zero =>
          simp only [chunkLoop, if_pos hlt, List.length_cons, Nat.mul_zero, Nat.add_zero]
          omega
        | succ j =>
          simp only [chunkLoop, if_pos hlt, List.length_cons]
          rw [Nat.succ_lt_succ_iff, ih1 j, Nat.mul_succ]
          constructor <;> intro <;> omega
      · intro i hi
        cases i with
        | zero =>
          simp only [chunkLoop, if_pos hlt, List.getElem?_cons_zero, Nat.mul_zero, Nat.add_zero]
        | succ j =>
          simp only [chunkLoop, if_pos hlt, List.getElem?_cons_succ]
          have hj : start + (W - O) + (W - O) * j < words.length := by
            rw [Nat.mul_succ] at hi
            omega
          rw [ih2 j hj]
          have e1 : start + (W - O) + (W - O) * j = start + (W - O) * (j + 1) := by
            rw [Nat.mul_succ]; omega
          have e2 : cid + 1 + j = cid + (j + 1) := by omega
          rw [e1, e2]
    · constructor
      · intro i
        simp only [chunkLoop, if_neg hlt, List.length_nil]
        have : start ≤ start + (W - O) * i := Nat.le_add_right _ _
        omega
      · intro i hi
        exfalso
        have : start ≤ start + (W - O) * i := Nat.le_add_right _ _
        omega

/-- C7 counterexample input: the empty (hence whitespace-only) text. -/
lemma pySplit_empty : pySplit "" = [] := by decide

/-- Claim C7 counterexample: on empty input
`_create_overlapping_chunks` (with the configured
`chunk_size = 500`, `chunk_overlap = 50`) returns one chunk with empty
text rather than the empty sequence the claim demands. -/
theorem C7_counterexample :
    create_overlapping_chunks defaultChunkSize defaultChunkOverlap "" "Page 1" "doc.pdf" ≠ [] := by
  decide

/-- Claim C7 (amended): for every configuration and every text whose
token count is at most `chunk_size` — including empty or whitespace-only
text, whose token count is 0 — `_create_overlapping_chunks` returns
exactly one chunk holding the whole text, with `chunk_id = "{section}_0"`
and `word_count` equal to the token count.  (The claim's empty-input
clause fails: empty input yields this single empty chunk, not an empty
sequence.) -/
theorem C7_single_chunk (W O : Nat) (text secL src : String)
    (h : (pySplit text).length ≤ W) :
    create_overlapping_chunks W O text secL src =
      [{ text := text
         sectionLabel := secL
         source_file := basename src
         chunk_id := secL ++ "_0"
         word_count := (pySplit text).length }] := by
  unfold create_overlapping_chunks
  simp [h]

/-- Claim C7 witness: a three-token text within the default window. -/
theorem C7_witness :
    ((pySplit "alpha beta gamma").length ≤ defaultChunkSize) ∧
    create_overlapping_chunks defaultChunkSize defaultChunkOverlap
        "alpha beta gamma" "Page 2" "notes.pdf" =
      [{ text := "alpha beta gamma"
         sectionLabel := "Page 2"
         source_file := basename "notes.pdf"
         chunk_id := "Page 2_0"
         word_count := (pySplit "alpha beta gamma").length }] :=
  ⟨by decide,
   C7_single_chunk defaultChunkSize defaultChunkOverlap "alpha beta gamma" "Page 2"
     "notes.pdf" (by decide)⟩

/-- Claim C8 (confirmed): for a text with more tokens than the window,
the loop advances the window start by `chunk_size - chunk_overlap`
tokens per chunk (chunk `i` exists iff `(W - O) * i` is still below the
token count), chunk `i` is the window of (up to) `W` tokens starting at
`(W - O) * i` with `chunk_id = "{section}_{i}"`, and for successive
chunks away from the final chunk the last `O` tokens of chunk `i` are
exactly the first `O` tokens of chunk `i + 1`.  The hypotheses cover the
configured tunables (`O = 50 < 500 = W`, `2 * O ≤ W`). -/
theorem C8_overlapping_windows (W O : Nat) (text secL src : String)
    (h1 : O < W) (h2 : 2 * O ≤ W) (h3 : W < (pySplit text).length) :
    (∀ i : Nat,
        i < (create_overlapping_chunks W O text secL src).length ↔
          (W - O) * i < (pySplit text).length) ∧
    (∀ (i : Nat) (h : i < (create_overlapping_chunks W O text secL src).length),
        (create_overlapping_chunks W O text secL src).get ⟨i, h⟩ =
          { text := joinSep " " (((pySplit text).drop ((W - O) * i)).take W)
            sectionLabel := secL
            source_file := basename src
            chunk_id := secL ++ "_" ++ toString i
            word_count := (((pySplit text).drop ((W - O) * i)).take W).length }) ∧
    (∀ i : Nat, i + 2 < (create_overlapping_chunks W O text secL src).length →
        (((pySplit text).drop ((W - O) * i)).take W).length = W ∧
        O ≤ (((pySplit text).drop ((W - O) * (i + 1))).take W).length ∧
        (((pySplit text).drop ((W - O) * i)).take W).drop (W - O) =
          (((pySplit text).drop ((W - O) * (i + 1))).take W).take O) := by
  set words := pySplit text with hwords
  have hs : 1 ≤ W - O := by omega
  have hfuel : words.length ≤ 0 + (W - O) * words.length := by
    have := Nat.le_mul_of_pos_left words.length (show 0 < W - O by omega)
    omega
  have hloop := chunkLoop_spec W O words secL (basename src) hs words.length 0 0 hfuel
  have hcs : create_overlapping_chunks W O text secL src =
      chunkLoop W O words secL (basename src) words.length 0 0 := by
    unfold create_overlapping_chunks
    rw [← hwords, if_neg (by omega)]
  obtain ⟨hlen, hget⟩ := hloop
  refine ⟨?_, ?_, ?_⟩
  · intro i
    rw [hcs]
    simpa using hlen i
  · intro i h
    have hmem : 0 + (W - O) * i < words.length := by
      have h' : i < (chunkLoop W O words secL (basename src) words.length 0 0).length := by
        rw [← hcs]; exact h
      exact (hlen i).mp h'
    have hsome := hget i hmem
    have hval : (create_overlapping_chunks W O text secL src)[i]? =
        some (windowChunk W words secL (basename src) (0 + (W - O) * i) (0 + i)) := by
      rw [hcs]; exact hsome
    have hgetel : (create_overlapping_chunks W O text secL src).get ⟨i, h⟩ =
        windowChunk W words secL (basename src) (0 + (W - O) * i) (0 + i) := by
      have h2el := List.getElem?_eq_getElem h
      rw [List.get_eq_getElem]
      exact Option.some.inj (h2el.symm.trans hval)
    rw [hgetel, windowChunk_eq]
    simp only [Nat.zero_add]
  · intro i hi
    rw [hcs] at hi
    have h2i : 0 + (W - O) * (i + 2) < words.length := (hlen (i + 2)).mp hi
    have hms : (W - O) * (i + 2) = (W - O) * i + (W - O) + (W - O) := by
      rw [Nat.mul_succ, Nat.mul_succ]
    have hlow : (W - O) * i + (W - O) + (W - O) < words.length := by omega
    refine ⟨?_, ?_, ?_⟩
    · simp only [List.length_take, List.length_drop]
      omega
    · simp only [List.length_take, List.length_drop]
      rw [Nat.mul_succ]
      omega
    · have lhs_eq : ((words.drop ((W - O) * i)).take W).drop (W - O) =
          (words.drop ((W - O) * (i + 1))).take O := by
        rw [List.drop_take]
        have : W - (W - O) = O := by omega
        rw [this, List.drop_drop]
        have : (W - O) * i + (W - O) = (W - O) * (i + 1) := by
          rw [Nat.mul_succ]
        rw [this]
      have rhs_eq : ((words.drop ((W - O) * (i + 1))).take W).take O =
          (words.drop ((W - O) * (i + 1))).take O := by
        rw [List.take_take]
        congr 1
        omega
      rw [lhs_eq, rhs_eq]

/-- Claim C8 witness: window 4, overlap 1 over an 11-token text
(four chunks, so two non-final successive pairs). -/
theorem C8_witness :
    (1 < 4 ∧ 2 * 1 ≤ 4 ∧ 4 < (pySplit "a b c d e f g h i j k").length) ∧
    ((∀ i : Nat,
        i < (create_overlapping_chunks 4 1 "a b c d e f g h i j k" "Sec" "f.pdf").length ↔
          (4 - 1) * i < (pySplit "a b c d e f g h i j k").length) ∧
    (∀ (i : Nat) (h : i < (create_overlapping_chunks 4 1 "a b c d e f g h i j k" "Sec" "f.pdf").length),
        (create_overlapping_chunks 4 1 "a b c d e f g h i j k" "Sec" "f.pdf").get ⟨i, h⟩ =
          { text := joinSep " " (((pySplit "a b c d e f g h i j k").drop ((4 - 1) * i)).take 4)
            sectionLabel := "Sec"
            source_file := basename "f.pdf"
            chunk_id := "Sec" ++ "_" ++ toString i
            word_count := (((pySplit "a b c d e f g h i j k").drop ((4 - 1) * i)).take 4).length }) ∧
    (∀ i : Nat, i + 2 < (create_overlapping_chunks 4 1 "a b c d e f g h i j k" "Sec" "f.pdf").length →
        (((pySplit "a b c d e f g h i j k").drop ((4 - 1) * i)).take 4).length = 4 ∧
        1 ≤ (((pySplit "a b c d e f g h i j k").drop ((4 - 1) * (i + 1))).take 4).length ∧
        (((pySplit "a b c d e f g h i j k").drop ((4 - 1) * i)).take 4).drop (4 - 1) =
          (((pySplit "a b c d e f g h i j k").drop ((4 - 1) * (i + 1))).take 4).take 1)) :=
  ⟨by decide,
   C8_overlapping_windows 4 1 "a b c d e f g h i j k" "Sec" "f.pdf"
     (by decide) (by decide) (by decide)⟩

/-! ## Conversation memory lemmas -/

/-- For a bound of at least one and a state within the bound,
`add_message` is append-then-keep-the-last-`N`. -/
lemma add_message_drop (N : Nat) (hN : 1 ≤ N) (st : List Msg) (hst : st.length ≤ N)
    (m : Msg) :
    add_message N st m = (st ++ [m]).drop ((st ++ [m]).length - N) := by
  unfold add_message pyTail
  by_cases hlt : N < (st ++ [m]).length
  · rw [if_pos hlt, if_neg (by omega)]
  · rw [if_neg hlt]
    have : (st ++ [m]).length - N = 0 := by
      simp only [List.length_append, List.length_cons, List.length_nil] at hlt ⊢
      omega
    rw [this, List.drop_zero]

/-- `add_message` keeps the state within the bound. -/
lemma add_message_length_le (N : Nat) (hN : 1 ≤ N) (st : List Msg)
    (hst : st.length ≤ N) (m : Msg) : (add_message N st m).length ≤ N := by
  rw [add_message_drop N hN st hst m, List.length_drop]
  omega

/-- Folding `add_message` over any message sequence from a state within
the bound keeps exactly the last `N` of the concatenation. -/
lemma foldl_add_message (N : Nat) (hN : 1 ≤ N) :
    ∀ (ms st : List Msg), st.length ≤ N →
      List.foldl (add_message N) st ms = (st ++ ms).drop ((st ++ ms).length - N) := by
  intro ms
  induction ms with
  | nil =>
    intro st hst
    simp only [List.foldl_nil, List.append_nil]
    have : st.length - N = 0 := by omega
    rw [this, List.drop_zero]
  | cons m ms ih =>
    intro st hst
    rw [List.foldl_cons]
    have hstep := add_message_drop N hN st hst m
    have hlen := add_message_length_le N hN st hst m
    rw [ih _ hlen, hstep]
    have hk : (st ++ [m]).length - N ≤ (st ++ [m]).length := Nat.sub_le _ _
    rw [← List.drop_append_of_le_length hk, List.drop_drop]
    have harr : st ++ m :: ms = (st ++ [m]) ++ ms := by simp
    rw [harr]
    congr 1
    simp only [List.length_drop, List.length_append, List.length_cons, List.length_nil]
    omega

/-- Claim C9 (confirmed): with a bound `N ≥ 1` (the code always uses the
default 10), appending `N + 5` messages into an empty
`ConversationMemory` leaves exactly the last `N` — the 5 oldest are
evicted and the order of the rest is preserved — and the stored count
never exceeds the bound after any `add_message`. -/
theorem C9_fifo_bound (N : Nat) (ms : List Msg) (h1 : 1 ≤ N)
    (h2 : ms.length = N + 5) :
    List.foldl (add_message N) [] ms = ms.drop 5 ∧
    (List.foldl (add_message N) [] ms).length = N ∧
    (∀ (st : List Msg) (m : Msg), st.length ≤ N → (add_message N st m).length ≤ N) := by
  have hfold := foldl_add_message N h1 ms [] (by simp)
  simp only [List.nil_append] at hfold
  have h5 : ms.length - N = 5 := by omega
  refine ⟨?_, ?_, ?_⟩
  · rw [hfold, h5]
  · rw [hfold, h5, List.length_drop]
    omega
  · intro st m hst
    exact add_message_length_le N h1 st hst m

/-- Fifteen sample messages. -/
def demoMsgs : List Msg := (List.range 15).map (fun i => ("user", toString i))

/-- Claim C9 witness: the default bound 10 with 15 appended messages. -/
theorem C9_witness :
    (1 ≤ defaultMaxMessages ∧ demoMsgs.length = defaultMaxMessages + 5) ∧
    (List.foldl (add_message defaultMaxMessages) [] demoMsgs = demoMsgs.drop 5 ∧
      (List.foldl (add_message defaultMaxMessages) [] demoMsgs).length = defaultMaxMessages ∧
      (∀ (st : List Msg) (m : Msg), st.length ≤ defaultMaxMessages →
        (add_message defaultMaxMessages st m).length ≤ defaultMaxMessages)) :=
  ⟨by decide, C9_fifo_bound defaultMaxMessages demoMsgs (by decide) (by decide)⟩

/-- Claim C10 (confirmed): `get_messages` hands back a fresh list object
with the same contents; mutating it does not change the memory's stored
list, so later reads of `self.messages` are unaffected. -/
theorem C10_get_messages_copy (h : PyHeap) (r : Nat) (v : List Msg)
    (hr : r < h.lists.length) :
    (get_messages h r).2 ≠ r ∧
    heapGet (get_messages h r).1 (get_messages h r).2 = heapGet h r ∧
    heapGet (heapSet (get_messages h r).1 (get_messages h r).2 v) r = heapGet h r := by
  refine ⟨?_, ?_, ?_⟩
  · show h.lists.length ≠ r
    omega
  · show heapGet { lists := h.lists ++ [heapGet h r] } h.lists.length = heapGet h r
    unfold heapGet
    rw [List.getElem?_concat_length]
    rfl
  · show heapGet { lists := (h.lists ++ [heapGet h r]).set h.lists.length v } r = heapGet h r
    unfold heapGet
    rw [List.getElem?_set_ne (by omega), List.getElem?_append]
    rw [if_pos hr]

/-- Claim C10 witness: a one-object heap. -/
theorem C10_witness :
    (0 < (PyHeap.mk [[("user", "hi")]]).lists.length) ∧
    ((get_messages (PyHeap.mk [[("user", "hi")]]) 0).2 ≠ 0 ∧
      heapGet (get_messages (PyHeap.mk [[("user", "hi")]]) 0).1
          (get_messages (PyHeap.mk [[("user", "hi")]]) 0).2 =
        heapGet (PyHeap.mk [[("user", "hi")]]) 0 ∧
      heapGet (heapSet (get_messages (PyHeap.mk [[("user", "hi")]]) 0).1
            (get_messages (PyHeap.mk [[("user", "hi")]]) 0).2 [("assistant", "bye")]) 0 =
        heapGet (PyHeap.mk [[("user", "hi")]]) 0) :=
  ⟨by decide,
   C10_get_messages_copy (PyHeap.mk [[("user", "hi")]]) 0 [("assistant", "bye")] (by decide)⟩

/-! ## Memory-dict lemmas -/

/-- Creating a missing memory does not change its (empty) contents. -/
lemma getMsgs_ensureMem (d : MemDict) (u : String) :
    getMsgs (ensureMem d u) u = getMsgs d u := by
  unfold ensureMem
  by_cases hd : hasMem d u
  · rw [if_pos hd]
  · rw [if_neg hd]
    have hnone : d.find? (fun p => p.1 == u) = none := by
      rw [List.find?_eq_none]
      intro x hx hpx
      exact hd (List.any_eq_true.mpr ⟨x, hx, hpx⟩)
    unfold getMsgs
    rw [List.find?_append, hnone]
    simp

/-- Creating a memory makes the user present. -/
lemma hasMem_ensureMem (d : MemDict) (u : String) :
    hasMem (ensureMem d u) u = true := by
  unfold ensureMem
  by_cases hd : hasMem d u
  · rw [if_pos hd]; exact hd
  · rw [if_neg hd]
    unfold hasMem
    rw [List.any_append]
    simp [hasMem] at hd ⊢

/-- Overwriting a present user's messages is observed by the next read. -/
lemma getMsgs_setMsgs (d : MemDict) (u : String) (ms : List Msg)
    (h : hasMem d u = true) :
    getMsgs (setMsgs d u ms) u = ms := by
  induction d with
  | nil => simp [hasMem] at h
  | cons p d ih =>
    by_cases hp : p.1 == u
    · unfold setMsgs getMsgs
      simp only [List.map_cons, if_pos hp]
      have hfind : List.find? (fun q => q.1 == u)
          ((p.1, ms) :: (d.map (fun q => if q.1 == u then (q.1, ms) else q))) =
            some (p.1, ms) :=
        List.find?_cons_of_pos _ (by simpa using hp)
      rw [hfind]
      rfl
    · unfold setMsgs getMsgs
      simp only [List.map_cons, if_neg hp]
      have hfind : List.find? (fun q => q.1 == u)
          (p :: (d.map (fun q => if q.1 == u then (q.1, ms) else q))) =
            List.find? (fun q => q.1 == u)
              (d.map (fun q => if q.1 == u then (q.1, ms) else q)) :=
        List.find?_cons_of_neg _ (by simpa using hp)
      rw [hfind]
      have hd : hasMem d u = true := by
        unfold hasMem at h ⊢
        simp only [List.any_cons, hp, Bool.false_or] at h
        exact h
      have := ih hd
      unfold setMsgs getMsgs at this
      exact this

/-! ## FAISS search lemmas -/

/-- Squared L2 distances are non-negative. -/
lemma l2sq_nonneg (u v : List ℚ) : 0 ≤ l2sq u v := by
  unfold l2sq
  induction u generalizing v with
  | nil => simp
  | cons a u ih =>
    cases v with
    | nil => simp
    | cons b v =>
      simp only [List.zipWith_cons_cons, List.sum_cons]
      have h1 : 0 ≤ (a - b) * (a - b) := mul_self_nonneg _
      have h2 := ih v
      linarith

/-- A row of the flat-index search whose label is not `-1` is a real
entry: a non-negative in-range label whose distance is the squared L2
distance to the stored vector there. -/
lemma mem_faissSearch_real {embs : List (List ℚ)} {q : List ℚ} {k : Nat}
    {p : Int × ℚ} (hp : p ∈ faissSearch embs q k) (hne : p.1 ≠ -1) :
    0 ≤ p.1 ∧ p.1.toNat < embs.length ∧ p.2 = l2sq q (embs.getD p.1.toNat []) := by
  unfold faissSearch at hp
  rw [List.mem_append] at hp
  rcases hp with hp | hp
  · have hp2 : p ∈ List.insertionSort distLE (embs.enum.map
        (fun pr => ((pr.1 : Int), l2sq q pr.2))) :=
      (List.take_sublist _ _).subset hp
    have hp3 : p ∈ embs.enum.map (fun pr => ((pr.1 : Int), l2sq q pr.2)) :=
      (List.perm_insertionSort distLE _).mem_iff.mp hp2
    rw [List.mem_map] at hp3
    obtain ⟨pr, hpr, hval⟩ := hp3
    obtain ⟨hlt, hx⟩ := List.mem_enum hpr
    refine ⟨?_, ?_, ?_⟩
    · rw [← hval]; exact Int.ofNat_nonneg pr.1
    · rw [← hval]; simpa using hlt
    · rw [← hval]
      simp only [Int.toNat_ofNat]
      rw [List.getD_eq_getElem _ _ hlt]
      rw [hx]
  · exfalso
    rw [List.mem_replicate] at hp
    exact hne (by rw [hp.2])

/-- The real rows of the flat-index search are sorted by distance. -/
lemma pairwise_faissSearch_take {embs : List (List ℚ)} {q : List ℚ} {k : Nat} :
    List.Pairwise distLE
      ((List.insertionSort distLE (embs.enum.map
        (fun pr => ((pr.1 : Int), l2sq q pr.2)))).take k) :=
  List.Pairwise.sublist (List.take_sublist _ _)
    (List.sorted_insertionSort distLE _)

/-- Mapping a partial function over a pairwise-related list yields a
pairwise-related list, provided related sources map to related images. -/
lemma pairwise_filterMap_of {α β : Type} (f : α → Option β) {S : β → β → Prop}
    {l : List α}
    (h : List.Pairwise (fun a b => ∀ x y, f a = some x → f b = some y → S x y) l) :
    List.Pairwise S (l.filterMap f) := by
  induction l with
  | nil => simp
  | cons a l ih =>
    rw [List.pairwise_cons] at h
    obtain ⟨ha, hl⟩ := h
    rw [List.filterMap_cons]
    cases hfa : f a with
    | none => exact ih hl
    | some x =>
      rw [List.pairwise_cons]
      refine ⟨?_, ih hl⟩
      intro y hy
      rw [List.mem_filterMap] at hy
      obtain ⟨b, hb, hfb⟩ := hy
      exact ha b hb x y hfa hfb

/-- Every list whose members all map to `some` keeps its length under
`filterMap`. -/
lemma length_filterMap_of_some {α β : Type} (f : α → Option β) :
    ∀ (l : List α), (∀ p ∈ l, ∃ x, f p = some x) → (l.filterMap f).length = l.length := by
  intro l
  induction l with
  | nil => simp
  | cons a l ih =>
    intro h
    obtain ⟨x, hx⟩ := h a (List.mem_cons_self a l)
    rw [List.filterMap_cons, hx, List.length_cons,
      ih (fun p hp => h p (List.mem_cons_of_mem a hp))]
    simp

/-- A row of the sorted, truncated (pre-padding) part of the flat-index
search is a real entry. -/
lemma mem_faissTop {embs : List (List ℚ)} {q : List ℚ} {k : Nat} {p : Int × ℚ}
    (hp : p ∈ (List.insertionSort distLE (embs.enum.map
        (fun pr => ((pr.1 : Int), l2sq q pr.2)))).take k) :
    0 ≤ p.1 ∧ p.1.toNat < embs.length := by
  have hp2 : p ∈ List.insertionSort distLE (embs.enum.map
      (fun pr => ((pr.1 : Int), l2sq q pr.2))) :=
    (List.take_sublist _ _).subset hp
  have hp3 : p ∈ embs.enum.map (fun pr => ((pr.1 : Int), l2sq q pr.2)) :=
    (List.perm_insertionSort distLE _).mem_iff.mp hp2
  rw [List.mem_map] at hp3
  obtain ⟨pr, hpr, hval⟩ := hp3
  obtain ⟨hlt, _⟩ := List.mem_enum hpr
  constructor
  · rw [← hval]; exact Int.ofNat_nonneg pr.1
  · rw [← hval]; simpa using hlt

/-- Behaviour of the external FAISS wrapper: its results are sorted by
ascending distance, every distance is a squared L2 distance (hence
non-negative), and the result count is `top_k` clamped to the number of
entries. -/
lemma similarity_search_with_score_spec (entries : List (List ℚ × LCDoc))
    (qv : List ℚ) (k : Nat) :
    List.Pairwise (fun a b : LCDoc × ℚ => a.2 ≤ b.2)
      (similarity_search_with_score entries qv k) ∧
    (∀ r ∈ similarity_search_with_score entries qv k, 0 ≤ r.2) ∧
    (similarity_search_with_score entries qv k).length = min k entries.length := by
  set embs := entries.map Prod.fst with hembs
  set f : Int × ℚ → Option (LCDoc × ℚ) := fun p =>
    if p.1 = -1 then none else (entries[p.1.toNat]?).map (fun e => (e.2, p.2)) with hf
  set pairs := embs.enum.map (fun pr => ((pr.1 : Int), l2sq qv pr.2)) with hpairs
  set top := (List.insertionSort distLE pairs).take k with htop
  have hsssws : similarity_search_with_score entries qv k =
      (top ++ List.replicate (k - top.length) (-1, fltMax)).filterMap f := by
    simp only [similarity_search_with_score, faissSearch, hf, htop, hpairs, hembs]
  have hf_snd : ∀ (p : Int × ℚ) (x : LCDoc × ℚ), f p = some x → x.2 = p.2 := by
    intro p x hx
    rw [hf] at hx
    simp only at hx
    by_cases hne : p.1 = -1
    · rw [if_pos hne] at hx; cases hx
    · rw [if_neg hne] at hx
      rw [Option.map_eq_some'] at hx
      obtain ⟨e, _, hex⟩ := hx
      rw [← hex]
  have hf_pad : f (-1, fltMax) = none := by
    rw [hf]
    simp
  have hpw : List.Pairwise (fun a b : Int × ℚ => ∀ x y, f a = some x → f b = some y → x.2 ≤ y.2)
      (top ++ List.replicate (k - top.length) (-1, fltMax)) := by
    rw [List.pairwise_append]
    refine ⟨?_, ?_, ?_⟩
    · refine List.Pairwise.imp ?_ (@pairwise_faissSearch_take embs qv k)
      intro a b hab x y hx hy
      rw [hf_snd a x hx, hf_snd b y hy]
      exact hab
    · rw [List.pairwise_replicate]
      right
      intro x y hx
      rw [hf_pad] at hx
      cases hx
    · intro a _ b hb x y _ hy
      rw [List.mem_replicate] at hb
      rw [hb.2, hf_pad] at hy
      cases hy
  have hall_some : ∀ p ∈ top, ∃ x, f p = some x := by
    intro p hp
    obtain ⟨hp0, hplt⟩ := @mem_faissTop embs qv k p hp
    have hne : ¬p.1 = -1 := by omega
    have hlt' : p.1.toNat < entries.length := by
      rw [hembs] at hplt; simpa using hplt
    have hget : entries[p.1.toNat]? = some entries[p.1.toNat] :=
      List.getElem?_eq_getElem hlt'
    refine ⟨(entries[p.1.toNat].2, p.2), ?_⟩
    rw [hf]
    simp only [if_neg hne, hget, Option.map_some']
  refine ⟨?_, ?_, ?_⟩
  · rw [hsssws]
    exact pairwise_filterMap_of f hpw
  · intro r hr
    rw [hsssws, List.mem_filterMap] at hr
    obtain ⟨p, hpmem, hpf⟩ := hr
    have hne : p.1 ≠ -1 := by
      intro hcon
      rw [hf] at hpf
      simp only [if_pos hcon] at hpf
      cases hpf
    have hmem2 : p ∈ faissSearch embs qv k := by
      simp only [faissSearch]
      rw [← hpairs, ← htop]
      exact hpmem
    have hreal : 0 ≤ p.1 ∧ p.1.toNat < embs.length ∧
        p.2 = l2sq qv (embs.getD p.1.toNat []) :=
      mem_faissSearch_real hmem2 hne
    rw [hf_snd p r hpf, hreal.2.2]
    exact l2sq_nonneg _ _
  · rw [hsssws, List.filterMap_append]
    have hpadnil : (List.replicate (k - top.length) ((-1 : Int), fltMax)).filterMap f = [] := by
      rw [List.filterMap_eq_nil]
      intro a ha
      rw [List.mem_replicate] at ha
      rw [ha.2, hf_pad]
    rw [hpadnil, List.append_nil, length_filterMap_of_some f top hall_some, htop]
    rw [List.length_take, List.length_insertionSort, hpairs, List.length_map, List.enum_length]
    rw [hembs, List.length_map]

/-- `LangChainVectorStore.search` on an initialised store, elementwise:
every result's `relevance_score` is `1 / (1 + distance)` with a
non-negative distance. -/
lemma LCStore_search_elem (emb : String → List ℚ) (st : LCStore) (query : String)
    (top_k : Nat) (entries : List (List ℚ × LCDoc)) (h : st.vectorstore = some entries)
    {r : ChunkDict} (hr : r ∈ LCStore.search emb st query top_k) :
    0 ≤ r.distance ∧ r.relevance_score = 1 / (1 + r.distance) := by
  unfold LCStore.search at hr
  rw [h] at hr
  rw [List.mem_map] at hr
  obtain ⟨pr, hpr, hval⟩ := hr
  have hnn := (similarity_search_with_score_spec entries (emb query) top_k).2.1 pr hpr
  rw [← hval]
  exact ⟨hnn, rfl⟩

/-- The number of search results is `top_k` clamped to the index size. -/
lemma LCStore_search_length (emb : String → List ℚ) (st : LCStore) (query : String)
    (top_k : Nat) (entries : List (List ℚ × LCDoc)) (h : st.vectorstore = some entries) :
    (LCStore.search emb st query top_k).length = min top_k entries.length := by
  unfold LCStore.search
  rw [h]
  rw [List.length_map]
  exact (similarity_search_with_score_spec entries (emb query) top_k).2.2

/-- Claim C3 (confirmed): on an initialised store, `search` returns
results sorted by non-decreasing distance, every result carries
`relevance_score = 1 / (1 + distance)` lying in `(0, 1]`, and the
relevance scores are non-increasing along the result list.  (The legacy
`EmbeddingManager.search` attaches no `relevance_score` at all; the
store the service queries is `LangChainVectorStore`, embedded here.) -/
theorem C3_search_sorted_scored (emb : String → List ℚ) (st : LCStore)
    (query : String) (top_k : Nat) (entries : List (List ℚ × LCDoc))
    (h : st.vectorstore = some entries) :
    List.Pairwise (fun a b : ChunkDict => a.distance ≤ b.distance)
      (LCStore.search emb st query top_k) ∧
    (∀ r ∈ LCStore.search emb st query top_k,
      r.relevance_score = 1 / (1 + r.distance) ∧
        0 < r.relevance_score ∧ r.relevance_score ≤ 1) ∧
    List.Pairwise (fun a b : ChunkDict => b.relevance_score ≤ a.relevance_score)
      (LCStore.search emb st query top_k) := by
  have hpair : List.Pairwise (fun a b : ChunkDict => a.distance ≤ b.distance)
      (LCStore.search emb st query top_k) := by
    unfold LCStore.search
    rw [h]
    rw [List.pairwise_map]
    exact (similarity_search_with_score_spec entries (emb query) top_k).1
  have helem : ∀ r ∈ LCStore.search emb st query top_k,
      0 ≤ r.distance ∧ r.relevance_score = 1 / (1 + r.distance) :=
    fun r hr => LCStore_search_elem emb st query top_k entries h hr
  refine ⟨hpair, ?_, ?_⟩
  · intro r hr
    obtain ⟨hd, hrel⟩ := helem r hr
    refine ⟨hrel, ?_, ?_⟩
    · rw [hrel]
      exact one_div_pos.mpr (by linarith)
    · rw [hrel]
      rw [div_le_one (by linarith)]
      linarith
  · refine List.Pairwise.imp_of_mem ?_ hpair
    intro a b ha hb hab
    obtain ⟨hda, hra⟩ := helem a ha
    obtain ⟨hdb, hrb⟩ := helem b hb
    rw [hra, hrb]
    exact one_div_le_one_div_of_le (by linarith) (by linarith)

/-- Claim C3 witness: the one-entry store. -/
theorem C3_witness :
    (demoStore.vectorstore = some [([], demoDoc)]) ∧
    (List.Pairwise (fun a b : ChunkDict => a.distance ≤ b.distance)
      (LCStore.search zeroEmb demoStore "What is photosynthesis?" 3) ∧
    (∀ r ∈ LCStore.search zeroEmb demoStore "What is photosynthesis?" 3,
      r.relevance_score = 1 / (1 + r.distance) ∧
        0 < r.relevance_score ∧ r.relevance_score ≤ 1) ∧
    List.Pairwise (fun a b : ChunkDict => b.relevance_score ≤ a.relevance_score)
      (LCStore.search zeroEmb demoStore "What is photosynthesis?" 3)) :=
  ⟨rfl, C3_search_sorted_scored zeroEmb demoStore "What is photosynthesis?" 3
    [([], demoDoc)] rfl⟩

/-- Claim C2 (amended): `answer_question` reports all retrieved chunks —
`total_sources = min top_k (index size)` — while the generation context
of the answering path depends only on the first three retrieved chunks
(`_prepare_context` reads `chunks[:3]`); the two counts agree only when
`min top_k (index size) ≤ 3`, e.g. at the default `top_k = 3`, not
independently of `top_k` as claimed. -/
theorem C2_total_sources (emb : String → List ℚ) (gen : Gen) (st : LCStore)
    (mem : MemDict) (query : String) (top_k : Nat) (uid : Option String)
    (entries : List (List ℚ × LCDoc)) (h : st.vectorstore = some entries) :
    (answer_question emb gen st mem query top_k uid).1.total_sources =
      min top_k entries.length ∧
    (∀ cs : List ChunkDict, prepare_context cs = prepare_context (cs.take 3)) := by
  constructor
  · have hlen := LCStore_search_length emb st query top_k entries h
    obtain ⟨vs⟩ := st
    simp only [LCStore.vectorstore] at h
    subst h
    unfold answer_question
    by_cases hr : LCStore.search emb { vectorstore := some entries } query top_k = []
    · simp only [hr, if_pos rfl]
      rw [hr] at hlen
      simpa using hlen
    · simp only [if_neg hr]
      simp only [List.length_map]
      exact hlen
  · intro cs
    unfold prepare_context
    rw [List.take_take]
    simp

/-- Claim C2 counterexample: four indexed entries and `top_k = 4` (the
generation capability always fails, so the manual path answers):
`total_sources` is 4 but the generation context used only the top 3
retrieved chunks. -/
theorem C2_counterexample :
    (answer_question zeroEmb genFail demoStore4 [] "Explain the topic" 4 none).1.total_sources = 4 ∧
    ((LCStore.search zeroEmb demoStore4 "Explain the topic" 4).take 3).length = 3 ∧
    (answer_question zeroEmb genFail demoStore4 [] "Explain the topic" 4 none).1.total_sources ≠
      ((LCStore.search zeroEmb demoStore4 "Explain the topic" 4).take 3).length := by
  decide

/-- Claim C2 witness: the four-entry store at `top_k = 2`. -/
theorem C2_witness :
    (demoStore4.vectorstore = some [([], docN 1), ([], docN 2), ([], docN 3), ([], docN 4)]) ∧
    ((answer_question zeroEmb genShort demoStore4 [] "Hello" 2 none).1.total_sources =
        min 2 ([(([] : List ℚ), docN 1), ([], docN 2), ([], docN 3), ([], docN 4)] :
          List (List ℚ × LCDoc)).length ∧
      (∀ cs : List ChunkDict, prepare_context cs = prepare_context (cs.take 3))) :=
  ⟨rfl, C2_total_sources zeroEmb genShort demoStore4 [] "Hello" 2 none
    [([], docN 1), ([], docN 2), ([], docN 3), ([], docN 4)] rfl⟩

/-- Claim C4: `EmbeddingManager.search` with `top_k` larger than the
index size.  FAISS pads the missing rows with label `-1`; the guard
`if idx < len(self.chunks)` admits `-1`, and Python's negative indexing
makes `self.chunks[-1]` the last stored chunk — so a one-chunk index
queried with `top_k = 2` yields two results, both copies of the same
chunk, instead of the claimed `count()` distinct results. -/
theorem C4_padding_duplicates :
    EmbeddingManager.add_chunks zeroEmb ⟨none, []⟩ [demoChunk] =
      Except.ok ({ index := some [[]], chunks := [demoChunk] } : EmbeddingManager) ∧
    EmbeddingManager.count ({ index := some [[]], chunks := [demoChunk] } : EmbeddingManager) = 1 ∧
    (EmbeddingManager.search zeroEmb
      ({ index := some [[]], chunks := [demoChunk] } : EmbeddingManager)
      "anything" 2).length = 2 ∧
    (EmbeddingManager.search zeroEmb
      ({ index := some [[]], chunks := [demoChunk] } : EmbeddingManager)
      "anything" 2).map Prod.fst = [demoChunk, demoChunk] :=
  ⟨rfl, by decide⟩

/-- The number of sub-documents `LangChainVectorStore.add_chunks` builds
from an input batch: chunks with empty text are skipped, the others
contribute one document per splitter piece. -/
def docsCount (splitText : String → List String) (chunks : List Chunk) : Nat :=
  (chunks.map (fun c => if c.text = "" then 0 else (splitText c.text).length)).sum

/-- Claim C5 (amended): `EmbeddingManager.add_chunks` accumulates across
calls with no replace semantics — `count()` after a non-empty add on an
empty index is `len(chunks)` and two sequential non-empty adds sum — but
empty input is not a no-op there: `add_chunks([])` raises `ValueError`
(`model.encode([])` yields a shape-`(0,)` array that
`IndexFlatL2.add` rejects), leaving `count()` unchanged only because the
raise precedes `self.chunks.extend`.  `LangChainVectorStore.add_chunks`
accumulates with no replace semantics and does treat empty input as a
no-op, but its `count()` counts the produced sub-documents — empty-text
chunks contribute nothing and re-split texts contribute one per piece —
so it need not equal `len(chunks)`. -/
theorem C5_add_accumulates (emb : String → List ℚ)
    (splitText : String → List String) (cs cs2 : List Chunk) (st : LCStore)
    (m : EmbeddingManager) (h1 : cs ≠ []) (h2 : cs2 ≠ []) :
    (EmbeddingManager.add_chunks emb ⟨none, []⟩ cs).map EmbeddingManager.count =
      Except.ok cs.length ∧
    ((EmbeddingManager.add_chunks emb ⟨none, []⟩ cs).bind
      (fun m1 => EmbeddingManager.add_chunks emb m1 cs2)).map EmbeddingManager.count =
      Except.ok (cs.length + cs2.length) ∧
    EmbeddingManager.add_chunks emb m [] = Except.error () ∧
    LCStore.count (LCStore.add_chunks emb splitText st cs) =
      LCStore.count st + docsCount splitText cs ∧
    LCStore.add_chunks emb splitText st [] = st := by
  have hcs : cs.isEmpty = false := by
    cases cs with
    | nil => exact absurd rfl h1
    | cons a l => rfl
  have hcs2 : cs2.isEmpty = false := by
    cases cs2 with
    | nil => exact absurd rfl h2
    | cons a l => rfl
  refine ⟨?_, ?_, ?_, ?_, ?_⟩
  · simp [EmbeddingManager.add_chunks, EmbeddingManager.count, hcs, Except.map]
  · simp [EmbeddingManager.add_chunks, EmbeddingManager.count, hcs, hcs2,
      Except.map, Except.bind]
  · simp [EmbeddingManager.add_chunks]
  · have hcsne : ¬cs.isEmpty = true := by simp [hcs]
    have hdoclen : (cs.flatMap (fun c =>
        if c.text = "" then []
        else (splitText c.text).enum.map (fun p =>
          ({ page_content := p.2
             source_file := c.source_file
             sectionLabel := c.sectionLabel
             chunk_id := c.chunk_id ++ "_" ++ toString p.1
             original_chunk_id := c.chunk_id } : LCDoc)))).length =
        docsCount splitText cs := by
      rw [List.length_flatMap]
      unfold docsCount
      congr 1
      apply List.map_congr_left
      intro c _
      by_cases hct : c.text = ""
      · simp [hct, Function.comp]
      · simp [hct, Function.comp]
    unfold LCStore.add_chunks
    rw [if_neg hcsne]
    simp only []
    by_cases hdoc : (cs.flatMap (fun c =>
        if c.text = "" then []
        else (splitText c.text).enum.map (fun p =>
          ({ page_content := p.2
             source_file := c.source_file
             sectionLabel := c.sectionLabel
             chunk_id := c.chunk_id ++ "_" ++ toString p.1
             original_chunk_id := c.chunk_id } : LCDoc)))).isEmpty
    · rw [if_pos hdoc]
      have h0 : docsCount splitText cs = 0 := by
        rw [← hdoclen, List.isEmpty_iff.mp hdoc]
        rfl
      rw [h0]
      simp
    · rw [if_neg hdoc]
      obtain ⟨vs⟩ := st
      cases vs with
      | none =>
        simp only [LCStore.count, List.length_map, hdoclen]
        omega
      | some entries =>
        simp only [LCStore.count, List.length_append, List.length_map, hdoclen]
  · unfold LCStore.add_chunks
    rw [if_pos (by decide)]

/-- Claim C5 counterexample: adding one chunk whose text is empty to an
empty `LangChainVectorStore` leaves `count() = 0`, not `len(chunks) = 1`
(the `if not chunk_text: continue` guard skips the chunk). -/
theorem C5_counterexample :
    LCStore.count (LCStore.add_chunks zeroEmb (fun t => [t])
      { vectorstore := none } [emptyTextChunk]) ≠ [emptyTextChunk].length := by
  decide

/-- Claim C5 witness: two sequential one-chunk adds on the embedding
manager, the raising empty add, and the LangChain store laws at an
identity splitter. -/
theorem C5_witness :
    (([demoChunk] : List Chunk) ≠ [] ∧ ([emptyTextChunk] : List Chunk) ≠ []) ∧
    ((EmbeddingManager.add_chunks zeroEmb ⟨none, []⟩ [demoChunk]).map
        EmbeddingManager.count = Except.ok ([demoChunk] : List Chunk).length ∧
      ((EmbeddingManager.add_chunks zeroEmb ⟨none, []⟩ [demoChunk]).bind
        (fun m1 => EmbeddingManager.add_chunks zeroEmb m1 [emptyTextChunk])).map
        EmbeddingManager.count =
        Except.ok (([demoChunk] : List Chunk).length + ([emptyTextChunk] : List Chunk).length) ∧
      EmbeddingManager.add_chunks zeroEmb ⟨none, []⟩ [] = Except.error () ∧
      LCStore.count (LCStore.add_chunks zeroEmb (fun t => [t]) demoStore [demoChunk]) =
        LCStore.count demoStore + docsCount (fun t => [t]) [demoChunk] ∧
      LCStore.add_chunks zeroEmb (fun t => [t]) demoStore [] = demoStore) :=
  ⟨⟨by decide, by decide⟩,
   C5_add_accumulates zeroEmb (fun t => [t]) [demoChunk] [emptyTextChunk] demoStore
     ⟨none, []⟩ (by decide) (by decide)⟩

/-! ## RAG fallback lemmas -/

/-- A concatenation starting with a non-empty string is non-empty. -/
lemma append_ne_empty_left (a t : String) (ha : a ≠ "") : a ++ t ≠ "" := by
  intro hcon
  apply ha
  have hd : (a ++ t).data = [] := by rw [hcon]
  rw [String.data_append] at hd
  exact String.ext (List.append_eq_nil.mp hd).1

/-- `join` of a list with a non-empty head is non-empty. -/
lemma joinSep_cons_ne_empty (sep a : String) (l : List String) (ha : a ≠ "") :
    joinSep sep (a :: l) ≠ "" := by
  cases l with
  | nil => exact ha
  | cons b bs =>
    show a ++ sep ++ joinSep sep (b :: bs) ≠ ""
    rw [String.append_assoc]
    exact append_ne_empty_left a _ ha

/-- The manual fallback answer is never empty for a non-empty retrieval. -/
lemma simple_answer_ne_empty (query : String) (cs : List ChunkDict) (hcs : cs ≠ []) :
    simple_answer query cs ≠ "" := by
  unfold simple_answer
  rw [if_neg hcs]
  exact joinSep_cons_ne_empty _ _ _ (by decide)

/-- When the LLM call raises, `generate_answer` returns the
source-concatenation fallback and only the lazily-created (still empty)
memory entry is added — no messages. -/
lemma generate_answer_fail (gen : Gen) (hgen : ∀ ms, gen ms = Except.error ())
    (mem : MemDict) (query : String) (cs : List ChunkDict) (uid : Option String)
    (hcs : cs ≠ []) :
    generate_answer gen mem query cs uid =
      (simple_answer query cs,
        match uid with
        | some u => ensureMem mem u
        | none => mem) := by
  simp only [generate_answer, if_neg hcs, hgen]

/-- When the LLM call returns `s`, `generate_answer` stores
`(user, query)` and `(assistant, s.strip())` in the user's memory and
answers with `s.strip()` when it is long enough, the apology otherwise. -/
lemma generate_answer_ok (mem : MemDict) (query : String) (cs : List ChunkDict)
    (u : String) (s : String) (hcs : cs ≠ []) :
    generate_answer (fun _ => Except.ok s) mem query cs (some u) =
      (if pyStrip s ≠ "" ∧ 20 < (pyStrip (pyStrip s)).length then pyStrip s
        else apologyMsg,
       setMsgs (ensureMem mem u) u
         (add_message defaultMaxMessages
           (add_message defaultMaxMessages (getMsgs (ensureMem mem u) u) ("user", query))
           ("assistant", pyStrip s))) := by
  simp only [generate_answer, if_neg hcs]
  split
  · rfl
  · rfl

/-- `generate_answer` never returns an empty answer for a non-empty
retrieval. -/
lemma generate_answer_ne_empty (gen : Gen) (mem : MemDict) (query : String)
    (cs : List ChunkDict) (uid : Option String) (hcs : cs ≠ []) :
    (generate_answer gen mem query cs uid).1 ≠ "" := by
  simp only [generate_answer, if_neg hcs]
  split
  · exact simple_answer_ne_empty query cs hcs
  · split
    · next hc => exact hc.1
    · exact (by decide : apologyMsg ≠ "")

/-- Claim C1 (amended): for every injected generation capability the
embedded `answer_question` is total — it returns a well-formed result
(query echoed, `total_sources` equal to the length of `sources`) with a
non-empty answer rather than raising; and when the capability always
fails (error or timeout) while retrieval is non-empty, the answer is the
`_simple_answer` fallback, the concatenation of the top retrieved source
texts.  (The claim's too-short clause fails: a too-short successful
completion yields a fixed apology message, not a source-synthesised
answer — see the counterexample.) -/
theorem C1_graceful_fallback (emb : String → List ℚ) (gen : Gen) (st : LCStore)
    (mem : MemDict) (query : String) (top_k : Nat) (uid : Option String) :
    (answer_question emb gen st mem query top_k uid).1.query = query ∧
    (answer_question emb gen st mem query top_k uid).1.total_sources =
      (answer_question emb gen st mem query top_k uid).1.sources.length ∧
    (answer_question emb gen st mem query top_k uid).1.answer ≠ "" ∧
    ((∀ ms, gen ms = Except.error ()) → LCStore.search emb st query top_k ≠ [] →
      (answer_question emb gen st mem query top_k uid).1.answer =
        simple_answer query (LCStore.search emb st query top_k)) := by
  obtain ⟨vs⟩ := st
  cases vs with
  | none =>
    refine ⟨rfl, rfl, ?_, ?_⟩
    · exact (by decide : insufficientMsg ≠ "")
    · intro _ hne
      exact absurd rfl hne
  | some entries =>
    by_cases hr : LCStore.search emb { vectorstore := some entries } query top_k = []
    · refine ⟨?_, ?_, ?_, ?_⟩
      · simp only [answer_question, if_pos hr]
      · simp only [answer_question, if_pos hr]
        rfl
      · simp only [answer_question, if_pos hr]
        decide
      · intro _ hne
        exact absurd hr hne
    · refine ⟨?_, ?_, ?_, ?_⟩
      · simp only [answer_question, if_neg hr]
      · simp only [answer_question, if_neg hr]
      · simp only [answer_question, if_neg hr]
        exact generate_answer_ne_empty gen mem query _ uid hr
      · intro hgen _
        simp only [answer_question, if_neg hr]
        rw [generate_answer_fail gen hgen mem query _ uid hr]

/-- Claim C1 counterexample: a generation capability that succeeds with
the too-short completion `"ok"` on a one-entry index.  The claim demands
a fallback answer synthesised from the retrieved source texts; the code
returns the fixed apology message instead. -/
theorem C1_counterexample :
    (answer_question zeroEmb genShort demoStore [] "What is photosynthesis?" 3 none).1.answer =
      apologyMsg ∧
    (answer_question zeroEmb genShort demoStore [] "What is photosynthesis?" 3 none).1.answer ≠
      simple_answer "What is photosynthesis?"
        (LCStore.search zeroEmb demoStore "What is photosynthesis?" 3) := by
  decide

/-- Claim C1 witness: the always-failing capability on the one-entry
index. -/
theorem C1_witness :
    ((∀ ms, genFail ms = Except.error ()) ∧
      LCStore.search zeroEmb demoStore "What is photosynthesis?" 3 ≠ []) ∧
    (answer_question zeroEmb genFail demoStore [] "What is photosynthesis?" 3 none).1.answer =
      simple_answer "What is photosynthesis?"
        (LCStore.search zeroEmb demoStore "What is photosynthesis?" 3) :=
  ⟨⟨fun _ => rfl, by decide⟩,
    (C1_graceful_fallback zeroEmb genFail demoStore [] "What is photosynthesis?" 3 none).2.2.2
      (fun _ => rfl) (by decide)⟩

/-- Claim C6 (amended): with a `user_id` and a non-empty retrieval, the
memory write-back depends on how generation went.  When the capability
returns `s`, the user's memory gets `(user, query)` then
`(assistant, s.strip())` appended — and `s.strip()` is also the returned
answer only when it is longer than 20 characters (otherwise the apology
message is returned while the raw stripped completion is what was
stored).  When the capability raises, the fallback produces the answer
and the user's memory receives no messages at all. -/
theorem C6_memory_writeback (emb : String → List ℚ) (st : LCStore) (mem : MemDict)
    (query : String) (top_k : Nat) (u : String) (s : String) (gen : Gen)
    (hgen : ∀ ms, gen ms = Except.error ())
    (h2 : LCStore.search emb st query top_k ≠ []) :
    getMsgs (answer_question emb (fun _ => Except.ok s) st mem query top_k (some u)).2 u =
      add_message defaultMaxMessages
        (add_message defaultMaxMessages (getMsgs mem u) ("user", query))
        ("assistant", pyStrip s) ∧
    (pyStrip s ≠ "" ∧ 20 < (pyStrip (pyStrip s)).length →
      (answer_question emb (fun _ => Except.ok s) st mem query top_k (some u)).1.answer =
        pyStrip s) ∧
    getMsgs (answer_question emb gen st mem query top_k (some u)).2 u = getMsgs mem u := by
  obtain ⟨vs⟩ := st
  cases vs with
  | none => exact absurd rfl h2
  | some entries =>
    refine ⟨?_, ?_, ?_⟩
    · simp only [answer_question, if_neg h2]
      rw [generate_answer_ok mem query _ u s h2]
      rw [getMsgs_setMsgs _ _ _ (hasMem_ensureMem mem u), getMsgs_ensureMem]
    · intro hc
      simp only [answer_question, if_neg h2]
      rw [generate_answer_ok mem query _ u s h2]
      simp only [if_pos hc]
    · simp only [answer_question, if_neg h2]
      rw [generate_answer_fail gen hgen mem query _ (some u) h2]
      exact getMsgs_ensureMem mem u

/-- Claim C6 counterexample: an always-failing capability, a provided
`user_id` and a fresh memory.  The fallback answers (one source is
reported) but the user's memory stays empty — not the claimed two
appended entries. -/
theorem C6_counterexample :
    (answer_question zeroEmb genFail demoStore [] "What is photosynthesis?" 3
      (some "user1")).1.total_sources = 1 ∧
    getMsgs (answer_question zeroEmb genFail demoStore [] "What is photosynthesis?" 3
      (some "user1")).2 "user1" = [] := by
  decide

/-- Claim C6 witness: a long successful completion on the one-entry
index. -/
theorem C6_witness :
    ((∀ ms, genFail ms = Except.error ()) ∧
      LCStore.search zeroEmb demoStore "What is light?" 3 ≠ []) ∧
    (getMsgs (answer_question zeroEmb
        (fun _ => Except.ok "Light is electromagnetic radiation visible to the eye.")
        demoStore [] "What is light?" 3 (some "user1")).2 "user1" =
      add_message defaultMaxMessages
        (add_message defaultMaxMessages (getMsgs [] "user1") ("user", "What is light?"))
        ("assistant", pyStrip "Light is electromagnetic radiation visible to the eye.") ∧
    (pyStrip "Light is electromagnetic radiation visible to the eye." ≠ "" ∧
        20 < (pyStrip (pyStrip "Light is electromagnetic radiation visible to the eye.")).length →
      (answer_question zeroEmb
        (fun _ => Except.ok "Light is electromagnetic radiation visible to the eye.")
        demoStore [] "What is light?" 3 (some "user1")).1.answer =
        pyStrip "Light is electromagnetic radiation visible to the eye.") ∧
    getMsgs (answer_question zeroEmb genFail demoStore [] "What is light?" 3
      (some "user1")).2 "user1" = getMsgs [] "user1") :=
  ⟨⟨fun _ => rfl, by decide⟩,
    C6_memory_writeback zeroEmb demoStore [] "What is light?" 3 "user1"
      "Light is electromagnetic radiation visible to the eye." genFail
      (fun _ => rfl) (by decide)⟩

end AITutor
